import Mathlib

/-!
# Verification of the DDX3216 Cathedral Reverb processing engine

A shallow embedding, over exact rational arithmetic, of the audio engine in
`PluginProcessor.h` / `PluginProcessor.cpp`:

* `SharcCombFilter` and `SharcAllpassFilter` with their scalar and SIMD block
  processing paths (the SIMD lane width is a parameter `w`; the C++ width is
  platform dependent, 4 on SSE/NEON);
* the top-level block algorithm `processBlock` of `DdxReverbAudioProcessor`
  (channel clearing, bypass, mono downmix, hi-cut, pre-delay, comb loop,
  allpass chain, wet/dry mix, CPU measurement);
* `prepareToPlay`.

Transcendental library calls (`std::pow(10, x)`, `std::exp`,
`juce::Decibels::decibelsToGain`) are kept abstract as a bundle `Prims` of
rational-valued functions, so every definition stays computable; theorems
quantify over the bundle and concrete runs instantiate it with stand-ins.

The C++ hi-cut filter memory is a function-local `static float` inside
`processBlock`: a single mutable cell per process, shared by every processor
instance and untouched by `prepareToPlay`.  It is therefore modelled as a
separate `GlobalState` threaded next to the per-instance `EngineState`.
-/

attribute [local semireducible] Rat.add Rat.mul Rat.inv Rat.sub Rat.ofScientific

/-- `juce::jlimit` on rationals: `v < lo ? lo : hi < v ? hi : v`. -/
def jlimit (lo hi v : ℚ) : ℚ :=
  if v < lo then lo else if hi < v then hi else v

/-- `juce::jlimit` on integers (C++ `int`). -/
def jlimitInt (lo hi v : ℤ) : ℤ :=
  if v < lo then lo else if hi < v then hi else v

/-- `juce::jmap(v, s0, s1, t0, t1)`: linear range mapping. -/
def jmap (v s0 s1 t0 t1 : ℚ) : ℚ :=
  t0 + (t1 - t0) * (v - s0) / (s1 - s0)

/-- C++ `static_cast<int>` on a floating value: truncation toward zero.
`q.num / q.den` is integer division, which truncates toward zero. -/
def truncQ (q : ℚ) : ℤ := q.num / (q.den : ℤ)

/-- The transcendental library functions used by the engine, kept abstract:
`pow10 x` stands for `std::pow(10.0f, x)`, `dampCoeff f sr` for
`std::exp(-2π f / sr)` (the one-pole damping coefficient), and `dbToGain db`
for `juce::Decibels::decibelsToGain(db)`. -/
structure Prims where
  pow10 : ℚ → ℚ
  dampCoeff : ℚ → ℚ → ℚ
  dbToGain : ℚ → ℚ

/-- State of `SharcCombFilter` (PluginProcessor.h): a circular delay line, the
active delay length, the write cursor, the feedback gain, the one-pole damping
coefficient and its single-sample memory, and the stored sample rate. -/
structure SharcCombFilter where
  delayLine : List ℚ
  delaySamples : ℕ
  writeIndex : ℕ
  feedbackGain : ℚ
  dampingCoeff : ℚ
  filterState : ℚ
  sRate : ℚ
deriving DecidableEq

/-- `SharcCombFilter::prepare`. -/
def SharcCombFilter.prepare (P : Prims) (sRate : ℚ) (maxDelaySamples : ℤ)
    (initialGain dampingFreq : ℚ) : SharcCombFilter :=
  { delayLine := List.replicate maxDelaySamples.toNat 0
    delaySamples := (jlimitInt 1 maxDelaySamples maxDelaySamples).toNat
    writeIndex := 0
    feedbackGain := initialGain
    dampingCoeff := P.dampCoeff dampingFreq sRate
    filterState := 0
    sRate := sRate }

/-- `SharcCombFilter::setDelaySamples`. -/
def SharcCombFilter.setDelaySamples (s : SharcCombFilter) (newDelay : ℤ) : SharcCombFilter :=
  { s with delaySamples := (jlimitInt 1 (s.delayLine.length : ℤ) newDelay).toNat }

/-- `SharcCombFilter::setGain`: clamps to `[0, 0.99]`. -/
def SharcCombFilter.setGain (s : SharcCombFilter) (newGain : ℚ) : SharcCombFilter :=
  { s with feedbackGain := jlimit 0 (99 / 100) newGain }

/-- `SharcCombFilter::setDampingFreq`. -/
def SharcCombFilter.setDampingFreq (P : Prims) (s : SharcCombFilter) (freq : ℚ) :
    SharcCombFilter :=
  { s with dampingCoeff := P.dampCoeff freq s.sRate }

/-- One iteration of the loop body of `SharcCombFilter::processBlockScalar`:
read the delayed sample, update the one-pole damping memory, form
`input + g * flt`, write it at the cursor, output it, advance the cursor with
wrap at the active delay length. -/
def combStepScalar (s : SharcCombFilter) (x : ℚ) : SharcCombFilter × ℚ :=
  let delayed := s.delayLine.getD s.writeIndex 0
  let flt := delayed + s.dampingCoeff * (s.filterState - delayed)
  let newSample := x + s.feedbackGain * flt
  ({ s with
      delayLine := s.delayLine.set s.writeIndex newSample
      writeIndex := if s.writeIndex + 1 ≥ s.delaySamples then 0 else s.writeIndex + 1
      filterState := flt },
    newSample)

/-- `SharcCombFilter::processBlockScalar` over a block of samples. -/
def SharcCombFilter.processBlockScalar :
    SharcCombFilter → List ℚ → SharcCombFilter × List ℚ
  | s, [] => (s, [])
  | s, x :: xs =>
    let p := combStepScalar s x
    let r := p.1.processBlockScalar xs
    (r.1, p.2 :: r.2)

/-- The delayed-sample gather of the SIMD main loops: for `j = 0..w-1` read
`buffer[(pos + j) % len]` (written with a running position, which visits the
same indices). -/
def simdReadDelayed (buf : List ℚ) (len : ℕ) : ℕ → ℕ → List ℚ
  | _, 0 => []
  | pos, Nat.succ k => buf.getD (pos % len) 0 :: simdReadDelayed buf len (pos + 1) k

/-- The per-lane sequential damping update of `processBlockSIMD`
(`flt = delayed[j] + damp * (flt - delayed[j])` for each lane in order),
returning the damped values and the final memory. -/
def simdDampSeq (damp : ℚ) : ℚ → List ℚ → List ℚ × ℚ
  | flt, [] => ([], flt)
  | flt, d :: ds =>
    let f1 := d + damp * (flt - d)
    let r := simdDampSeq damp f1 ds
    (f1 :: r.1, r.2)

/-- The store-back of the SIMD main loops: for `j = 0..` write `vals[j]` to
`buffer[(pos + j) % len]` (running position). -/
def simdWriteBack (len : ℕ) : List ℚ → ℕ → List ℚ → List ℚ
  | buf, _, [] => buf
  | buf, pos, v :: vs => simdWriteBack len (buf.set (pos % len) v) (pos + 1) vs

/-- One iteration of the SIMD main loop of `SharcCombFilter::processBlockSIMD`:
gather `w` delayed samples, run the damping recurrence across the lanes,
form `input + g * damped` per lane, store the outputs back, and advance the
cursor by `w` modulo the active length. -/
def combSimdGroup (w : ℕ) (s : SharcCombFilter) (xs : List ℚ) :
    SharcCombFilter × List ℚ :=
  let delayed := simdReadDelayed s.delayLine s.delaySamples s.writeIndex w
  let dr := simdDampSeq s.dampingCoeff s.filterState delayed
  let outs := List.zipWith (fun x d => x + s.feedbackGain * d) xs dr.1
  ({ s with
      delayLine := simdWriteBack s.delaySamples s.delayLine s.writeIndex outs
      writeIndex := (s.writeIndex + w) % s.delaySamples
      filterState := dr.2 },
    outs)

/-- `k` iterations of the SIMD main loop followed by the scalar tail (the
tail loop body of `processBlockSIMD` is identical to the scalar path). -/
def combSimdGroups (w : ℕ) : ℕ → SharcCombFilter → List ℚ → SharcCombFilter × List ℚ
  | 0, s, xs => s.processBlockScalar xs
  | Nat.succ k, s, xs =>
    let p := combSimdGroup w s (xs.take w)
    let r := combSimdGroups w k p.1 (xs.drop w)
    (r.1, p.2 ++ r.2)

/-- `SharcCombFilter::processBlockSIMD` with lane width `w`:
`vectorSamples = (numSamples / w) * w` lanes in the main loop, scalar tail. -/
def SharcCombFilter.processBlockSIMD (s : SharcCombFilter) (w : ℕ) (xs : List ℚ) :
    SharcCombFilter × List ℚ :=
  combSimdGroups w (xs.length / w) s xs

/-- State of `SharcAllpassFilter` (PluginProcessor.h). -/
structure SharcAllpassFilter where
  delayLine : List ℚ
  delaySamples : ℕ
  writeIndex : ℕ
  apGain : ℚ
deriving DecidableEq

/-- `SharcAllpassFilter::prepare` (the sample-rate argument is ignored by the
source). -/
def SharcAllpassFilter.prepare (maxDelaySamples : ℤ) (initialGain : ℚ) :
    SharcAllpassFilter :=
  { delayLine := List.replicate maxDelaySamples.toNat 0
    delaySamples := (jlimitInt 1 maxDelaySamples maxDelaySamples).toNat
    writeIndex := 0
    apGain := initialGain }

/-- `SharcAllpassFilter::setDelaySamples`. -/
def SharcAllpassFilter.setDelaySamples (s : SharcAllpassFilter) (newDelay : ℤ) :
    SharcAllpassFilter :=
  { s with delaySamples := (jlimitInt 1 (s.delayLine.length : ℤ) newDelay).toNat }

/-- `SharcAllpassFilter::setGain`: clamps to `[-0.99, 0.99]`. -/
def SharcAllpassFilter.setGain (s : SharcAllpassFilter) (newGain : ℚ) :
    SharcAllpassFilter :=
  { s with apGain := jlimit (-(99 / 100)) (99 / 100) newGain }

/-- One iteration of the loop body of `SharcAllpassFilter::processBlockScalar`:
read the delayed sample, output `-g*input + delayed`, write
`input + delayed*g` at the cursor, advance the cursor with wrap. -/
def allpassStepScalar (s : SharcAllpassFilter) (x : ℚ) : SharcAllpassFilter × ℚ :=
  let delayed := s.delayLine.getD s.writeIndex 0
  let out := -s.apGain * x + delayed
  ({ s with
      delayLine := s.delayLine.set s.writeIndex (x + delayed * s.apGain)
      writeIndex := if s.writeIndex + 1 ≥ s.delaySamples then 0 else s.writeIndex + 1 },
    out)

/-- `SharcAllpassFilter::processBlockScalar` over a block of samples. -/
def SharcAllpassFilter.processBlockScalar :
    SharcAllpassFilter → List ℚ → SharcAllpassFilter × List ℚ
  | s, [] => (s, [])
  | s, x :: xs =>
    let p := allpassStepScalar s x
    let r := p.1.processBlockScalar xs
    (r.1, p.2 :: r.2)

/-- One iteration of the SIMD main loop of
`SharcAllpassFilter::processBlockSIMD`: gather `w` delayed samples, output
`g*input*(-1) + delayed` per lane, store `input + g*delayed` back, advance the
cursor by `w` modulo the active length. -/
def allpassSimdGroup (w : ℕ) (s : SharcAllpassFilter) (xs : List ℚ) :
    SharcAllpassFilter × List ℚ :=
  let delayed := simdReadDelayed s.delayLine s.delaySamples s.writeIndex w
  let outs := List.zipWith (fun x d => s.apGain * x * (-1) + d) xs delayed
  let news := List.zipWith (fun x d => x + s.apGain * d) xs delayed
  ({ s with
      delayLine := simdWriteBack s.delaySamples s.delayLine s.writeIndex news
      writeIndex := (s.writeIndex + w) % s.delaySamples },
    outs)

/-- `k` iterations of the allpass SIMD main loop followed by the scalar tail. -/
def allpassSimdGroups (w : ℕ) :
    ℕ → SharcAllpassFilter → List ℚ → SharcAllpassFilter × List ℚ
  | 0, s, xs => s.processBlockScalar xs
  | Nat.succ k, s, xs =>
    let p := allpassSimdGroup w s (xs.take w)
    let r := allpassSimdGroups w k p.1 (xs.drop w)
    (r.1, p.2 ++ r.2)

/-- `SharcAllpassFilter::processBlockSIMD` with lane width `w`. -/
def SharcAllpassFilter.processBlockSIMD (s : SharcAllpassFilter) (w : ℕ)
    (xs : List ℚ) : SharcAllpassFilter × List ℚ :=
  allpassSimdGroups w (xs.length / w) s xs

/-- The parameter snapshot read at the start of `processBlock` (one typed value
per APVTS parameter). -/
structure ReverbParams where
  decay : ℚ
  predelayMs : ℚ
  dampingPct : ℚ
  diffusion : ℚ
  hiCutDb : ℚ
  bassMult : ℚ
  wet : ℚ
  bypass : Bool
  simd : Bool
deriving DecidableEq

/-- Process-wide state: the function-local `static float prevSample` of the
hi-cut section of `processBlock`, which in C++ is one cell shared by every
`DdxReverbAudioProcessor` instance in the process and is zero-initialised at
program start, not at instance construction or preparation. -/
structure GlobalState where
  hicutStatic : ℚ
deriving DecidableEq

/-- Per-instance engine state of `DdxReverbAudioProcessor` (the members that
participate in audio processing). -/
structure EngineState where
  combs : List SharcCombFilter
  allpasses : List SharcAllpassFilter
  preDelayBuffer : List ℚ
  preDelayWritePos : ℕ
  preDelaySamples : ℕ
  currentSampleRate : ℚ
  useSIMD : Bool
  cpuUsage : ℚ
deriving DecidableEq

/-- The four comb base delays (samples at the 48 kHz reference). -/
def combDelays : List ℚ := [1116, 1188, 1277, 1356]

/-- The eight allpass base delays (samples at the 48 kHz reference). -/
def allpassDelays : List ℚ := [556, 441, 313, 391, 347, 113, 37, 59]

/-- The member values a freshly constructed `DdxReverbAudioProcessor` holds
(C++ default member initialisers; the filters are default-constructed). -/
def initialEngine : EngineState :=
  { combs := List.replicate 4 ⟨[], 1000, 0, 7 / 10, 1 / 2, 0, 48000⟩
    allpasses := List.replicate 8 ⟨[], 500, 0, 1 / 2⟩
    preDelayBuffer := []
    preDelayWritePos := 0
    preDelaySamples := 0
    currentSampleRate := 48000
    useSIMD := false
    cpuUsage := 0 }

/-- `DdxReverbAudioProcessor::prepareToPlay`: reallocates and zeroes the
pre-delay line, prepares the four combs (100 ms capacity) and eight allpasses
(50 ms capacity), scaling the base delays by `sampleRate / 48000`.  It touches
no other member (in particular not `cpuUsage`, and it cannot touch the
function-local hi-cut static, which is not part of `EngineState`). -/
def prepareToPlay (P : Prims) (sampleRate : ℚ) (e : EngineState) : EngineState :=
  let maxCombDelay := truncQ (sampleRate * (1 / 10))
  let maxAPDelay := truncQ (sampleRate * (1 / 20))
  { e with
    currentSampleRate := sampleRate
    preDelayBuffer := List.replicate (truncQ (sampleRate * (1 / 2))).toNat 0
    preDelayWritePos := 0
    combs := (List.range 4).map fun i =>
      (SharcCombFilter.prepare P sampleRate maxCombDelay (7 / 10) 5000).setDelaySamples
        (truncQ (combDelays.getD i 0 * sampleRate / 48000))
    allpasses := (List.range 8).map fun i =>
      (SharcAllpassFilter.prepare maxAPDelay (1 / 2)).setDelaySamples
        (truncQ (allpassDelays.getD i 0 * sampleRate / 48000)) }

/-- The channel-clearing loop at the top of `processBlock`: channels
`numIn ≤ i < numOut` are zero-filled (`i` is the running channel index). -/
def clearChannels (numIn numOut n : ℕ) : ℕ → List (List ℚ) → List (List ℚ)
  | _, [] => []
  | i, ch :: rest =>
    (if numIn ≤ i ∧ i < numOut then List.replicate n 0 else ch)
      :: clearChannels numIn numOut n (i + 1) rest

/-- The hi-cut one-pole loop of `processBlock`:
`prev = prev + cutoffGain * (x - prev)` per sample, outputting `prev`;
returns the final memory and the filtered block. -/
def hiCutFilter (cutoffGain : ℚ) : ℚ → List ℚ → ℚ × List ℚ
  | prev, [] => (prev, [])
  | prev, x :: xs =>
    let p := prev + cutoffGain * (x - prev)
    let r := hiCutFilter cutoffGain p xs
    (r.1, p :: r.2)

/-- The pre-delay loop of `processBlock`: read at `writePos - preDelaySamples`
(wrapped into range), write the input at `writePos`, output the delayed
sample, advance `writePos` with wrap at the buffer size. -/
def preDelayProcess (size pds : ℕ) :
    List ℚ → ℕ → List ℚ → List ℚ × ℕ × List ℚ
  | buf, wp, [] => (buf, wp, [])
  | buf, wp, x :: xs =>
    let readPos : ℤ := (wp : ℤ) - (pds : ℤ)
    let readPos := if readPos < 0 then readPos + (size : ℤ) else readPos
    let delayed := buf.getD readPos.toNat 0
    let r := preDelayProcess size pds (buf.set wp x)
      (if wp + 1 ≥ size then 0 else wp + 1) xs
    (r.1, r.2.1, delayed :: r.2.2)

/-- The comb loop of `processBlock` (lines 229-244): each comb processes the
CURRENT contents of the mono buffer into a scratch buffer; for `c = 0` the
scratch replaces the mono buffer, for `c > 0` it is added into it.  The mono
buffer is both accumulator and next comb's input. -/
def combLoop (useSimd : Bool) (w : ℕ) :
    Bool → List SharcCombFilter → List ℚ → List SharcCombFilter × List ℚ
  | _, [], mono => ([], mono)
  | isFirst, comb :: rest, mono =>
    let p := if useSimd then comb.processBlockSIMD w mono else comb.processBlockScalar mono
    let mono1 := if isFirst then p.2 else List.zipWith (· + ·) mono p.2
    let r := combLoop useSimd w false rest mono1
    (p.1 :: r.1, r.2)

/-- The series allpass loop of `processBlock`: set the gain on each stage then
process the mono buffer in place, stage `i`'s output feeding stage `i+1`. -/
def allpassChain (useSimd : Bool) (w : ℕ) (gain : ℚ) :
    List SharcAllpassFilter → List ℚ → List SharcAllpassFilter × List ℚ
  | [], mono => ([], mono)
  | ap :: rest, mono =>
    let ap1 := ap.setGain gain
    let p := if useSimd then ap1.processBlockSIMD w mono else ap1.processBlockScalar mono
    let r := allpassChain useSimd w gain rest p.2
    (p.1 :: r.1, r.2)

/-- The wet-path portion of `processBlock` with bypass off (parameter snapshot
through the allpass chain): mono downmix, conditional hi-cut, pre-delay,
comb-coefficient update, comb loop, 0.25 scaling, allpass chain.  Returns the
updated global (hi-cut) state, the updated engine state, and the mono wet
signal handed to the mixing stage. -/
def reverbWet (P : Prims) (w : ℕ) (p : ReverbParams) (numIn : ℕ)
    (g : GlobalState) (e : EngineState) (buffer : List (List ℚ)) :
    GlobalState × EngineState × List ℚ :=
  let mono0 := buffer.getD 0 []
  let mono1 :=
    if 1 < numIn then
      (List.zipWith (· + ·) mono0 (buffer.getD 1 [])).map (· * (1 / 2))
    else mono0
  let hc :=
    if p.hiCutDb > 1 / 100 then
      hiCutFilter (P.dbToGain (-p.hiCutDb)) g.hicutStatic mono1
    else (g.hicutStatic, mono1)
  let size := e.preDelayBuffer.length
  let pds := (jlimitInt 0 ((size : ℤ) - 1)
      (truncQ (p.predelayMs * e.currentSampleRate / 1000))).toNat
  let pd :=
    if 0 < pds then preDelayProcess size pds e.preDelayBuffer e.preDelayWritePos hc.2
    else (e.preDelayBuffer, e.preDelayWritePos, hc.2)
  let dampingFreq := jmap p.dampingPct 0 100 20000 2000
  let avgDelayMs := ((1116 + 1188 + 1277 + 1356 : ℚ) / 4) * 1000 / e.currentSampleRate
  let combGain :=
    jlimit (1 / 10) (99 / 100) (P.pow10 (-3 * avgDelayMs / (p.decay * 1000)))
      * (1 + p.bassMult * (5 / 100))
  let combs1 := e.combs.map fun c => (SharcCombFilter.setDampingFreq P c dampingFreq).setGain combGain
  let cl := combLoop p.simd w true combs1 pd.2.2
  let mono5 := cl.2.map (· * (1 / 4))
  let apGain := jmap p.diffusion 0 20 (3 / 10) (7 / 10)
  let ac := allpassChain p.simd w apGain e.allpasses mono5
  (⟨hc.1⟩,
   { e with
      useSIMD := p.simd
      preDelaySamples := pds
      preDelayBuffer := pd.1
      preDelayWritePos := pd.2.1
      combs := cl.1
      allpasses := ac.1 },
   ac.2)

/-- The wet/dry mixing loop of `processBlock`: for each output channel, copy
the dry channel (clamped channel index), scale by `1 - wet`, then add the mono
wet signal scaled by `+wet` (channel 0) or `-wet` (channel 1, the intentional
phase inversion).  Channels at index `≥ numOut` are left untouched. -/
def mixStage (wet : ℚ) (numOut : ℕ) (dry : List (List ℚ)) (mono : List ℚ)
    (buffer : List (List ℚ)) : List (List ℚ) :=
  (List.range buffer.length).map fun ch =>
    if ch < numOut then
      let dryData := dry.getD (min ch (dry.length - 1)) []
      let base := dryData.map (· * (1 - wet))
      if ch = 1 then List.zipWith (fun o m => o + m * (-wet)) base mono
      else List.zipWith (fun o m => o + m * wet) base mono
    else buffer.getD ch []

/-- `DdxReverbAudioProcessor::processBlock`.  `buffer` is the host audio
buffer as a list of channels; `blockTimeMs` is the wall-clock duration of the
block measured by the two `getMillisecondCounterHiRes` calls (an external
input to the model).  Clears the output channels beyond the input channel
count, returns immediately under bypass (before the parameter snapshot, all
processing and the CPU measurement), otherwise runs the wet path, mixes, and
stores `blockTime / (numSamples / sampleRate)` into `cpuUsage`. -/
def processBlock (P : Prims) (w : ℕ) (p : ReverbParams) (numIn numOut : ℕ)
    (g : GlobalState) (e : EngineState) (buffer : List (List ℚ))
    (blockTimeMs : ℚ) : GlobalState × EngineState × List (List ℚ) :=
  let n := (buffer.getD 0 []).length
  let buffer1 := clearChannels numIn numOut n 0 buffer
  if p.bypass then (g, e, buffer1)
  else
    let r := reverbWet P w p numIn g e buffer1
    let out := mixStage p.wet numOut buffer1 r.2.2 buffer1
    let cpu := (blockTimeMs / 1000) / ((n : ℚ) / r.2.1.currentSampleRate)
    (r.1, { r.2.1 with cpuUsage := cpu }, out)

/-- `DdxReverbAudioProcessor::getCpuUsage`. -/
def getCpuUsage (e : EngineState) : ℚ := e.cpuUsage

/-- A sequence of `processBlock` calls (each block: parameter snapshot, host
buffer, measured wall time), as a host would issue them. -/
def runBlocks (P : Prims) (w : ℕ) (numIn numOut : ℕ) :
    GlobalState × EngineState → List (ReverbParams × List (List ℚ) × ℚ) →
      GlobalState × EngineState
  | s, [] => s
  | s, b :: bs =>
    let r := processBlock P w b.1 numIn numOut s.1 s.2 b.2.1 b.2.2
    runBlocks P w numIn numOut (r.1, r.2.1) bs


/-! ## List and index helper lemmas -/

theorem getD_set_ne (l : List ℚ) (v : ℚ) :
    ∀ q i, q ≠ i → (l.set q v).getD i 0 = l.getD i 0 := by
  induction l with
  | nil => intro q i _; rfl
  | cons a as ih =>
    intro q i hqi
    cases q with
    | zero =>
      cases i with
      | zero => exact absurd rfl hqi
      | succ j => rfl
    | succ qq =>
      cases i with
      | zero => rfl
      | succ j =>
        simpa using ih qq j (fun hh => hqi (by rw [hh]))

theorem wrapIdx_eq_mod (idx len : ℕ) (h : idx < len) :
    (if idx + 1 ≥ len then 0 else idx + 1) = (idx + 1) % len := by
  by_cases hge : idx + 1 ≥ len
  · have hlen : idx + 1 = len := by omega
    simp [hge, hlen, Nat.mod_self]
  · have hlt : idx + 1 < len := by omega
    rw [if_neg hge, Nat.mod_eq_of_lt hlt]

theorem posShift_mod_ne (len idx j : ℕ) (hidx : idx < len) (hj : j + 1 < len) :
    (idx + 1 + j) % len ≠ idx := by
  rcases Nat.lt_or_ge (idx + 1 + j) len with h | h
  · rw [Nat.mod_eq_of_lt h]; omega
  · rw [Nat.mod_eq_sub_mod h, Nat.mod_eq_of_lt (by omega)]; omega

theorem simdReadDelayed_congrPos (buf : List ℚ) (len : ℕ) (w : ℕ) :
    ∀ p q, p % len = q % len →
      simdReadDelayed buf len p w = simdReadDelayed buf len q w := by
  induction w with
  | zero => intro p q _; rfl
  | succ k ih =>
    intro p q hpq
    simp only [simdReadDelayed, hpq]
    rw [ih (p + 1) (q + 1) (by rw [← Nat.mod_add_mod, hpq, Nat.mod_add_mod])]

theorem simdReadDelayed_set_ne (buf : List ℚ) (len : ℕ) (v : ℚ) (q : ℕ) (w : ℕ) :
    ∀ p, (∀ j, j < w → (p + j) % len ≠ q) →
      simdReadDelayed (buf.set q v) len p w = simdReadDelayed buf len p w := by
  induction w with
  | zero => intro p _; rfl
  | succ k ih =>
    intro p hp
    simp only [simdReadDelayed]
    rw [getD_set_ne buf v q (p % len) (fun hh => hp 0 (Nat.succ_pos k) (by simpa using hh.symm))]
    rw [ih (p + 1) (fun j hj => by
      have := hp (j + 1) (by omega)
      simpa [Nat.add_assoc, Nat.add_comm 1 j] using this)]

theorem simdWriteBack_congrPos (len : ℕ) (vs : List ℚ) :
    ∀ buf p q, p % len = q % len →
      simdWriteBack len buf p vs = simdWriteBack len buf q vs := by
  induction vs with
  | nil => intro buf p q _; rfl
  | cons v vs ih =>
    intro buf p q hpq
    simp only [simdWriteBack, hpq]
    exact ih _ (p + 1) (q + 1) (by rw [← Nat.mod_add_mod, hpq, Nat.mod_add_mod])

/-! ## Scalar/SIMD equivalence for the comb filter -/

theorem combStepScalar_delaySamples (s : SharcCombFilter) (x : ℚ) :
    (combStepScalar s x).1.delaySamples = s.delaySamples := rfl

theorem combStepScalar_length (s : SharcCombFilter) (x : ℚ) :
    (combStepScalar s x).1.delayLine.length = s.delayLine.length := by
  simp [combStepScalar]

theorem combStepScalar_writeIndex_lt (s : SharcCombFilter) (x : ℚ)
    (h0 : 0 < s.delaySamples) : (combStepScalar s x).1.writeIndex < s.delaySamples := by
  simp only [combStepScalar]
  split <;> omega

theorem combSimdGroup_eq_scalar :
    ∀ (xs : List ℚ) (s : SharcCombFilter),
      xs.length ≤ s.delaySamples → s.writeIndex < s.delaySamples →
      s.delaySamples ≤ s.delayLine.length →
      combSimdGroup xs.length s xs = s.processBlockScalar xs := by
  intro xs
  induction xs with
  | nil =>
    intro s hlen hidx hbuf
    simp [combSimdGroup, simdReadDelayed, simdDampSeq, simdWriteBack,
      SharcCombFilter.processBlockScalar, Nat.mod_eq_of_lt hidx]
  | cons x xs ih =>
    intro s hlen hidx hbuf
    have hlen1 : xs.length + 1 ≤ s.delaySamples := by
      simpa using hlen
    have h0 : 0 < s.delaySamples := by omega
    have hmodidx : s.writeIndex % s.delaySamples = s.writeIndex := Nat.mod_eq_of_lt hidx
    have hwrap := wrapIdx_eq_mod s.writeIndex s.delaySamples hidx
    have hne : ∀ j, j < xs.length →
        (s.writeIndex + 1 + j) % s.delaySamples ≠ s.writeIndex := by
      intro j hj
      exact posShift_mod_ne s.delaySamples s.writeIndex j hidx (by omega)
    have hihs := ih (combStepScalar s x).1
      (by rw [combStepScalar_delaySamples]; omega)
      (combStepScalar_writeIndex_lt s x h0)
      (by rw [combStepScalar_delaySamples, combStepScalar_length]; exact hbuf)
    simp only [SharcCombFilter.processBlockScalar, List.length_cons, ← hihs]
    simp only [combSimdGroup, combStepScalar, simdReadDelayed, simdDampSeq,
      List.zipWith_cons_cons, simdWriteBack, hmodidx, hwrap]
    rw [simdReadDelayed_congrPos _ _ _ ((s.writeIndex + 1) % s.delaySamples)
      (s.writeIndex + 1) (Nat.mod_mod _ _)]
    rw [simdReadDelayed_set_ne _ _ _ _ _ _ hne]
    rw [simdWriteBack_congrPos _ _ _ ((s.writeIndex + 1) % s.delaySamples)
      (s.writeIndex + 1) (Nat.mod_mod _ _)]
    have hadd : ((s.writeIndex + 1) % s.delaySamples + xs.length) % s.delaySamples
        = (s.writeIndex + (xs.length + 1)) % s.delaySamples := by
      rw [Nat.mod_add_mod]
      congr 1
      omega
    rw [hadd]

theorem combScalar_delaySamples :
    ∀ (xs : List ℚ) (s : SharcCombFilter),
      (s.processBlockScalar xs).1.delaySamples = s.delaySamples := by
  intro xs
  induction xs with
  | nil => intro s; rfl
  | cons x xs ih =>
    intro s
    simp only [SharcCombFilter.processBlockScalar]
    rw [ih (combStepScalar s x).1, combStepScalar_delaySamples]

theorem combScalar_length :
    ∀ (xs : List ℚ) (s : SharcCombFilter),
      (s.processBlockScalar xs).1.delayLine.length = s.delayLine.length := by
  intro xs
  induction xs with
  | nil => intro s; rfl
  | cons x xs ih =>
    intro s
    simp only [SharcCombFilter.processBlockScalar]
    rw [ih (combStepScalar s x).1, combStepScalar_length]

theorem combScalar_writeIndex_lt :
    ∀ (xs : List ℚ) (s : SharcCombFilter),
      s.writeIndex < s.delaySamples →
      (s.processBlockScalar xs).1.writeIndex < (s.processBlockScalar xs).1.delaySamples := by
  intro xs
  induction xs with
  | nil => intro s h; exact h
  | cons x xs ih =>
    intro s h
    simp only [SharcCombFilter.processBlockScalar]
    exact ih (combStepScalar s x).1
      (by rw [combStepScalar_delaySamples]; exact combStepScalar_writeIndex_lt s x (by omega))

theorem combScalar_append :
    ∀ (as : List ℚ) (bs : List ℚ) (s : SharcCombFilter),
      s.processBlockScalar (as ++ bs) =
        (((s.processBlockScalar as).1.processBlockScalar bs).1,
          (s.processBlockScalar as).2 ++ ((s.processBlockScalar as).1.processBlockScalar bs).2) := by
  intro as
  induction as with
  | nil => intro bs s; rfl
  | cons a as ih =>
    intro bs s
    simp only [List.cons_append, SharcCombFilter.processBlockScalar, List.append_eq]
    rw [ih bs (combStepScalar s a).1]

theorem combSimdGroups_eq_scalar :
    ∀ (k : ℕ) (w : ℕ) (s : SharcCombFilter) (xs : List ℚ),
      0 < w → w ≤ s.delaySamples → s.writeIndex < s.delaySamples →
      s.delaySamples ≤ s.delayLine.length → k * w ≤ xs.length →
      combSimdGroups w k s xs = s.processBlockScalar xs := by
  intro k
  induction k with
  | zero => intro w s xs _ _ _ _ _; rfl
  | succ k ih =>
    intro w s xs hw hwlen hidx hbuf hk
    have hk2 : k * w + w ≤ xs.length := by
      have h : (k + 1) * w = k * w + w := by ring
      rw [h] at hk
      exact hk
    have hwxs : w ≤ xs.length := by omega
    have htk : (xs.take w).length = w := by
      rw [List.length_take]
      omega
    simp only [combSimdGroups]
    have hgrp : combSimdGroup w s (xs.take w) = s.processBlockScalar (xs.take w) := by
      have := combSimdGroup_eq_scalar (xs.take w) s (by omega) hidx hbuf
      rwa [htk] at this
    rw [hgrp]
    have hrest : combSimdGroups w k (s.processBlockScalar (xs.take w)).1 (xs.drop w)
        = (s.processBlockScalar (xs.take w)).1.processBlockScalar (xs.drop w) := by
      apply ih
      · exact hw
      · rw [combScalar_delaySamples]; omega
      · have h := combScalar_writeIndex_lt (xs.take w) s hidx
        rw [combScalar_delaySamples] at h
        rw [combScalar_delaySamples]
        exact h
      · rw [combScalar_delaySamples, combScalar_length]; exact hbuf
      · rw [List.length_drop]
        omega
    rw [hrest]
    rw [← combScalar_append (xs.take w) (xs.drop w) s, List.take_append_drop]

theorem combSIMD_eq_scalar (w : ℕ) (s : SharcCombFilter) (xs : List ℚ)
    (hw : 0 < w) (hwlen : w ≤ s.delaySamples) (hidx : s.writeIndex < s.delaySamples)
    (hbuf : s.delaySamples ≤ s.delayLine.length) :
    s.processBlockSIMD w xs = s.processBlockScalar xs := by
  unfold SharcCombFilter.processBlockSIMD
  exact combSimdGroups_eq_scalar (xs.length / w) w s xs hw hwlen hidx hbuf
    (Nat.div_mul_le_self _ _)

/-! ## Scalar/SIMD equivalence for the allpass filter -/

theorem allpassStepScalar_delaySamples (s : SharcAllpassFilter) (x : ℚ) :
    (allpassStepScalar s x).1.delaySamples = s.delaySamples := rfl

theorem allpassStepScalar_length (s : SharcAllpassFilter) (x : ℚ) :
    (allpassStepScalar s x).1.delayLine.length = s.delayLine.length := by
  simp [allpassStepScalar]

theorem allpassStepScalar_writeIndex_lt (s : SharcAllpassFilter) (x : ℚ)
    (h0 : 0 < s.delaySamples) :
    (allpassStepScalar s x).1.writeIndex < s.delaySamples := by
  simp only [allpassStepScalar]
  split <;> omega

theorem allpassSimdGroup_eq_scalar :
    ∀ (xs : List ℚ) (s : SharcAllpassFilter),
      xs.length ≤ s.delaySamples → s.writeIndex < s.delaySamples →
      s.delaySamples ≤ s.delayLine.length →
      allpassSimdGroup xs.length s xs = s.processBlockScalar xs := by
  intro xs
  induction xs with
  | nil =>
    intro s hlen hidx hbuf
    simp [allpassSimdGroup, simdReadDelayed, simdWriteBack,
      SharcAllpassFilter.processBlockScalar, Nat.mod_eq_of_lt hidx]
  | cons x xs ih =>
    intro s hlen hidx hbuf
    have hlen1 : xs.length + 1 ≤ s.delaySamples := by
      simpa using hlen
    have h0 : 0 < s.delaySamples := by omega
    have hmodidx : s.writeIndex % s.delaySamples = s.writeIndex := Nat.mod_eq_of_lt hidx
    have hwrap := wrapIdx_eq_mod s.writeIndex s.delaySamples hidx
    have hne : ∀ j, j < xs.length →
        (s.writeIndex + 1 + j) % s.delaySamples ≠ s.writeIndex := by
      intro j hj
      exact posShift_mod_ne s.delaySamples s.writeIndex j hidx (by omega)
    have hihs := ih (allpassStepScalar s x).1
      (by rw [allpassStepScalar_delaySamples]; omega)
      (allpassStepScalar_writeIndex_lt s x h0)
      (by rw [allpassStepScalar_delaySamples, allpassStepScalar_length]; exact hbuf)
    simp only [SharcAllpassFilter.processBlockScalar, List.length_cons, ← hihs]
    simp only [allpassSimdGroup, allpassStepScalar, simdReadDelayed,
      List.zipWith_cons_cons, simdWriteBack, hmodidx, hwrap]
    rw [simdReadDelayed_congrPos _ _ _ ((s.writeIndex + 1) % s.delaySamples)
      (s.writeIndex + 1) (Nat.mod_mod _ _)]
    rw [simdReadDelayed_set_ne _ _ _ _ _ _ hne]
    rw [simdWriteBack_congrPos _ _ _ ((s.writeIndex + 1) % s.delaySamples)
      (s.writeIndex + 1) (Nat.mod_mod _ _)]
    have hadd : ((s.writeIndex + 1) % s.delaySamples + xs.length) % s.delaySamples
        = (s.writeIndex + (xs.length + 1)) % s.delaySamples := by
      rw [Nat.mod_add_mod]
      congr 1
      omega
    rw [hadd]
    have harith1 : s.apGain * x * (-1) = -s.apGain * x := by ring
    have harith2 : x + s.apGain * s.delayLine.getD s.writeIndex 0
        = x + s.delayLine.getD s.writeIndex 0 * s.apGain := by ring
    rw [harith1, harith2]

theorem allpassScalar_delaySamples :
    ∀ (xs : List ℚ) (s : SharcAllpassFilter),
      (s.processBlockScalar xs).1.delaySamples = s.delaySamples := by
  intro xs
  induction xs with
  | nil => intro s; rfl
  | cons x xs ih =>
    intro s
    simp only [SharcAllpassFilter.processBlockScalar]
    rw [ih (allpassStepScalar s x).1, allpassStepScalar_delaySamples]

theorem allpassScalar_length :
    ∀ (xs : List ℚ) (s : SharcAllpassFilter),
      (s.processBlockScalar xs).1.delayLine.length = s.delayLine.length := by
  intro xs
  induction xs with
  | nil => intro s; rfl
  | cons x xs ih =>
    intro s
    simp only [SharcAllpassFilter.processBlockScalar]
    rw [ih (allpassStepScalar s x).1, allpassStepScalar_length]

theorem allpassScalar_writeIndex_lt :
    ∀ (xs : List ℚ) (s : SharcAllpassFilter),
      s.writeIndex < s.delaySamples →
      (s.processBlockScalar xs).1.writeIndex < (s.processBlockScalar xs).1.delaySamples := by
  intro xs
  induction xs with
  | nil => intro s h; exact h
  | cons x xs ih =>
    intro s h
    simp only [SharcAllpassFilter.processBlockScalar]
    exact ih (allpassStepScalar s x).1
      (by rw [allpassStepScalar_delaySamples]
          exact allpassStepScalar_writeIndex_lt s x (by omega))

theorem allpassScalar_append :
    ∀ (as : List ℚ) (bs : List ℚ) (s : SharcAllpassFilter),
      s.processBlockScalar (as ++ bs) =
        (((s.processBlockScalar as).1.processBlockScalar bs).1,
          (s.processBlockScalar as).2 ++ ((s.processBlockScalar as).1.processBlockScalar bs).2) := by
  intro as
  induction as with
  | nil => intro bs s; rfl
  | cons a as ih =>
    intro bs s
    simp only [List.cons_append, SharcAllpassFilter.processBlockScalar, List.append_eq]
    rw [ih bs (allpassStepScalar s a).1]

theorem allpassSimdGroups_eq_scalar :
    ∀ (k : ℕ) (w : ℕ) (s : SharcAllpassFilter) (xs : List ℚ),
      0 < w → w ≤ s.delaySamples → s.writeIndex < s.delaySamples →
      s.delaySamples ≤ s.delayLine.length → k * w ≤ xs.length →
      allpassSimdGroups w k s xs = s.processBlockScalar xs := by
  intro k
  induction k with
  | zero => intro w s xs _ _ _ _ _; rfl
  | succ k ih =>
    intro w s xs hw hwlen hidx hbuf hk
    have hk2 : k * w + w ≤ xs.length := by
      have h : (k + 1) * w = k * w + w := by ring
      rw [h] at hk
      exact hk
    have hwxs : w ≤ xs.length := by omega
    have htk : (xs.take w).length = w := by
      rw [List.length_take]
      omega
    simp only [allpassSimdGroups]
    have hgrp : allpassSimdGroup w s (xs.take w) = s.processBlockScalar (xs.take w) := by
      have := allpassSimdGroup_eq_scalar (xs.take w) s (by omega) hidx hbuf
      rwa [htk] at this
    rw [hgrp]
    have hrest : allpassSimdGroups w k (s.processBlockScalar (xs.take w)).1 (xs.drop w)
        = (s.processBlockScalar (xs.take w)).1.processBlockScalar (xs.drop w) := by
      apply ih
      · exact hw
      · rw [allpassScalar_delaySamples]; omega
      · have h := allpassScalar_writeIndex_lt (xs.take w) s hidx
        rw [allpassScalar_delaySamples] at h
        rw [allpassScalar_delaySamples]
        exact h
      · rw [allpassScalar_delaySamples, allpassScalar_length]; exact hbuf
      · rw [List.length_drop]
        omega
    rw [hrest]
    rw [← allpassScalar_append (xs.take w) (xs.drop w) s, List.take_append_drop]

theorem allpassSIMD_eq_scalar (w : ℕ) (s : SharcAllpassFilter) (xs : List ℚ)
    (hw : 0 < w) (hwlen : w ≤ s.delaySamples) (hidx : s.writeIndex < s.delaySamples)
    (hbuf : s.delaySamples ≤ s.delayLine.length) :
    s.processBlockSIMD w xs = s.processBlockScalar xs := by
  unfold SharcAllpassFilter.processBlockSIMD
  exact allpassSimdGroups_eq_scalar (xs.length / w) w s xs hw hwlen hidx hbuf
    (Nat.div_mul_le_self _ _)

/-! ## Concrete fixtures for witnesses and counterexamples -/

/-- A computable stand-in instantiation of the abstract transcendental
primitives, used for concrete runs. -/
def testPrims : Prims := ⟨fun x => 1 / 2 + x, fun _ _ => 1 / 2, fun _ => 1 / 2⟩

/-- A prepared comb filter with capacity and active length 6. -/
def combFixture : SharcCombFilter :=
  SharcCombFilter.prepare testPrims 100 6 (7 / 10) 5000

/-- A prepared allpass filter with capacity and active length 6. -/
def apFixture : SharcAllpassFilter := SharcAllpassFilter.prepare 6 (1 / 2)

/-- A prepared comb filter whose active delay length is 1, i.e. below the
SIMD lane width. -/
def combLen1 : SharcCombFilter :=
  SharcCombFilter.prepare testPrims 100 1 (9 / 10) 5000

/-- C2 (amended): for every prepared comb and allpass filter, every parameter
setting and starting state in which the write cursor lies below the active
delay length and the active delay length is at least the SIMD lane width, and
every input block, `processBlockSIMD` produces exactly the same output block
and post-state as `processBlockScalar` (over exact arithmetic, hence within
any tolerance). -/
theorem c2_scalar_simd_equiv :
    (∀ (w : ℕ) (s : SharcCombFilter) (xs : List ℚ),
        0 < w → w ≤ s.delaySamples → s.writeIndex < s.delaySamples →
        s.delaySamples ≤ s.delayLine.length →
        s.processBlockSIMD w xs = s.processBlockScalar xs) ∧
    (∀ (w : ℕ) (s : SharcAllpassFilter) (xs : List ℚ),
        0 < w → w ≤ s.delaySamples → s.writeIndex < s.delaySamples →
        s.delaySamples ≤ s.delayLine.length →
        s.processBlockSIMD w xs = s.processBlockScalar xs) :=
  ⟨fun w s xs hw h1 h2 h3 => combSIMD_eq_scalar w s xs hw h1 h2 h3,
   fun w s xs hw h1 h2 h3 => allpassSIMD_eq_scalar w s xs hw h1 h2 h3⟩

/-- Witness for `c2_scalar_simd_equiv` at lane width 4, a five-sample block
(one SIMD group plus a scalar tail sample) and prepared filters of length 6. -/
theorem c2_scalar_simd_equiv_witness :
    combFixture.processBlockSIMD 4 [1, 2, 3, 4, 5]
        = combFixture.processBlockScalar [1, 2, 3, 4, 5] ∧
    apFixture.processBlockSIMD 4 [1, 2, 3, 4, 5]
        = apFixture.processBlockScalar [1, 2, 3, 4, 5] :=
  ⟨c2_scalar_simd_equiv.1 4 combFixture [1, 2, 3, 4, 5]
      (by decide) (by decide) (by decide) (by decide),
   c2_scalar_simd_equiv.2 4 apFixture [1, 2, 3, 4, 5]
      (by decide) (by decide) (by decide) (by decide)⟩

/-- C2 counterexample to the claim as stated (which quantifies over EVERY
active delay length): for a prepared comb filter with active delay length 1
and SIMD lane width 4, the SIMD and scalar outputs on the block `[1,1,1,1]`
differ by 9/20 at sample 1, far beyond the 1e-4 tolerance: the SIMD main loop
gathers all four delayed samples before any write, while the scalar recurrence
feeds each write back into the next read when the delay is shorter than the
lane width. -/
theorem c2_len1_tolerance_counterexample :
    ¬ (∀ i, i < 4 →
        |(combLen1.processBlockSIMD 4 [1, 1, 1, 1]).2.getD i 0
            - (combLen1.processBlockScalar [1, 1, 1, 1]).2.getD i 0| ≤ 1 / 10000) := by
  decide

/-! ## Engine-level fixtures -/

/-- An engine prepared at (model) sample rate 100: pre-delay capacity 50,
comb capacity 10 with active delay 2, allpass capacity 5 with active delay 1. -/
def engineAt100 : EngineState := prepareToPlay testPrims 100 initialEngine

/-- A parameter snapshot with the hi-cut stage active, full wet, no pre-delay,
bypass off, scalar path. -/
def paramsHiCut : ReverbParams :=
  { decay := 2, predelayMs := 0, dampingPct := 0, diffusion := 0, hiCutDb := 20,
    bassMult := 0, wet := 1, bypass := false, simd := false }

/-- A comb filter as the engine-prepared ones: capacity 2, active delay 2,
gain 9/10, damping coefficient 1/2, zero line and memory. -/
def combC1 : SharcCombFilter :=
  (SharcCombFilter.prepare testPrims 100 2 (9 / 10) 5000).setDelaySamples 2

/-- C1 (refuting the claim on the code): in the comb loop of `processBlock`
the mono buffer is both each comb's input and the accumulator — comb 0's
output REPLACES the buffer before comb 1 runs, so combs 1..3 each process the
accumulation of the earlier combs' outputs rather than the identical pre-delay
output.  On the one-sample impulse block `[1]` with four freshly prepared
combs, the code's post-scale comb-stage signal is `[2]`, whereas running the
four combs on the identical input, summing and scaling by 0.25 (the claimed
parallel topology, built here from the same source-level comb filters) gives
`[1]`. -/
theorem c1_combs_not_parallel :
    (combLoop false 4 true [combC1, combC1, combC1, combC1] [1]).2.map (· * (1 / 4)) ≠
      (List.zipWith (· + ·) (combC1.processBlockScalar [1]).2
        (List.zipWith (· + ·) (combC1.processBlockScalar [1]).2
          (List.zipWith (· + ·) (combC1.processBlockScalar [1]).2
            (combC1.processBlockScalar [1]).2))).map (· * (1 / 4)) := by
  decide

/-- C8: per-sample semantics of `SharcCombFilter::processBlockScalar`: the
delayed sample is read from the delay line at the current cursor BEFORE any
write (the `getD` below reads the pre-call `delayLine`); the damping memory
becomes `flt = delayed + d*(filterState - delayed)`; `newSample = input + g*flt`
is written to the delay line at the cursor and is also the output sample; the
cursor advances by one, wrapping to 0 at the active delay length. -/
theorem c8_comb_scalar_step (s : SharcCombFilter) (x : ℚ) (xs : List ℚ) :
    s.processBlockScalar (x :: xs) =
      (((combStepScalar s x).1.processBlockScalar xs).1,
        (x + s.feedbackGain *
            (s.delayLine.getD s.writeIndex 0
              + s.dampingCoeff * (s.filterState - s.delayLine.getD s.writeIndex 0)))
          :: ((combStepScalar s x).1.processBlockScalar xs).2) ∧
    (combStepScalar s x).1 =
      { s with
          delayLine := s.delayLine.set s.writeIndex
            (x + s.feedbackGain *
              (s.delayLine.getD s.writeIndex 0
                + s.dampingCoeff * (s.filterState - s.delayLine.getD s.writeIndex 0)))
          writeIndex := if s.writeIndex + 1 ≥ s.delaySamples then 0 else s.writeIndex + 1
          filterState := s.delayLine.getD s.writeIndex 0
            + s.dampingCoeff * (s.filterState - s.delayLine.getD s.writeIndex 0) } :=
  ⟨rfl, rfl⟩

/-- The output stream demanded by the claim's Schroeder recurrence
`y[n] = -g·x[n] + x[n-M] + g·y[n-M]` with zero pre-history, built from the
claim's words for comparison with the source-level allpass. -/
def schroederReference (g : ℚ) (M : ℕ) (xs : List ℚ) : List ℚ :=
  (List.range xs.length).foldl
    (fun ys n =>
      ys ++ [-g * xs.getD n 0 +
        (if M ≤ n then xs.getD (n - M) 0 + g * ys.getD (n - M) 0 else 0)])
    []

/-- C9 (refuting the recurrence part of the claim on the code): a freshly
prepared allpass with active delay M = 1 and gain g = 1/2 maps the impulse
block `[1, 0]` to `[-1/2, 1]`, but the Schroeder recurrence the claim (and
the class's own header comment) states gives `[-1/2, 3/4]`.  The source
writes `input + delayed*g` back; realizing the Schroeder recurrence requires
writing `input + g*output`.  The per-sample read/compute/write/advance
description in the claim is exactly what the code does; the recurrence gloss
is not. -/
theorem c9_allpass_not_schroeder :
    ((SharcAllpassFilter.prepare 1 (1 / 2)).processBlockScalar [1, 0]).2 = [-(1 / 2), 1] ∧
    schroederReference (1 / 2) 1 [1, 0] = [-(1 / 2), 3 / 4] ∧
    ((SharcAllpassFilter.prepare 1 (1 / 2)).processBlockScalar [1, 0]).2 ≠
      schroederReference (1 / 2) 1 [1, 0] := by
  refine ⟨by decide, by decide, by decide⟩

set_option maxRecDepth 40000 in
/-- C6 (refuting the claim on the code): the hi-cut tone-shaper memory is a
function-local `static` in `processBlock`, so `prepareToPlay` (whose effect is
confined to `EngineState`) cannot zero it.  Process one block with the hi-cut
active on input `[[1],[1]]` (the memory becomes 1/2), re-prepare, then process
a SILENT block on the freshly re-prepared engine: the tone-shaper memory is
still nonzero, and the silent block even produces nonzero output from the
stale energy — contradicting the claim that every filter memory is zero
before the next block after re-preparation. -/
theorem c6_prepare_leaves_hicut_state :
    (processBlock testPrims 4 paramsHiCut 2 2
        (processBlock testPrims 4 paramsHiCut 2 2 ⟨0⟩ engineAt100 [[1], [1]] 1).1
        (prepareToPlay testPrims 100
          (processBlock testPrims 4 paramsHiCut 2 2 ⟨0⟩ engineAt100 [[1], [1]] 1).2.1)
        [[0], [0]] 1).1.hicutStatic ≠ 0 ∧
    (processBlock testPrims 4 paramsHiCut 2 2
        (processBlock testPrims 4 paramsHiCut 2 2 ⟨0⟩ engineAt100 [[1], [1]] 1).1
        (prepareToPlay testPrims 100
          (processBlock testPrims 4 paramsHiCut 2 2 ⟨0⟩ engineAt100 [[1], [1]] 1).2.1)
        [[0], [0]] 1).2.2 ≠ [[0], [0]] := by
  refine ⟨by decide, by decide⟩

set_option maxRecDepth 40000 in
/-- C7 (refuting the claim on the code): two independently constructed and
prepared processor instances share the hi-cut `static` cell.  Processing one
block on instance A changes the output instance B then produces on the very
same input and instance state: B's output after A has run differs from B's
output when A has not run.  The ToneShaper state is therefore not private per
engine instance. -/
theorem c7_hicut_state_shared :
    (processBlock testPrims 4 paramsHiCut 2 2
        (processBlock testPrims 4 paramsHiCut 2 2 ⟨0⟩ engineAt100 [[1], [1]] 1).1
        engineAt100 [[1], [1]] 1).2.2 ≠
      (processBlock testPrims 4 paramsHiCut 2 2 ⟨0⟩ engineAt100 [[1], [1]] 1).2.2 := by
  decide

/-! ## C3: bypass identity -/

theorem clearChannels_get :
    ∀ (buffer : List (List ℚ)) (numIn numOut n i ch : ℕ),
      (clearChannels numIn numOut n i buffer).get? ch =
        (buffer.get? ch).map
          (fun c => if numIn ≤ i + ch ∧ i + ch < numOut then List.replicate n 0 else c) := by
  intro buffer
  induction buffer with
  | nil => intro numIn numOut n i ch; rfl
  | cons c rest ih =>
    intro numIn numOut n i ch
    cases ch with
    | zero => rfl
    | succ chh =>
      simp only [clearChannels, List.get?_cons_succ]
      rw [ih numIn numOut n (i + 1) chh]
      have h : i + 1 + chh = i + (chh + 1) := by omega
      rw [h]

/-- C3: when bypass is enabled, `processBlock` returns right after the
channel-clearing loop: the global hi-cut state and the whole engine state
(pre-delay line and cursor, comb and allpass delay lines, cursors, filter
memories, CPU reading) are exactly as before the call, every output channel
below the input channel count holds the input samples unchanged, and output
channels from the input count up to the output count are zero-filled. -/
theorem c3_bypass_identity (P : Prims) (w : ℕ) (p : ReverbParams)
    (numIn numOut : ℕ) (g : GlobalState) (e : EngineState)
    (buffer : List (List ℚ)) (t : ℚ) (hb : p.bypass = true) :
    (processBlock P w p numIn numOut g e buffer t).1 = g ∧
    (processBlock P w p numIn numOut g e buffer t).2.1 = e ∧
    (∀ ch, ch < numIn →
      (processBlock P w p numIn numOut g e buffer t).2.2.get? ch = buffer.get? ch) ∧
    (∀ ch, numIn ≤ ch → ch < numOut → ch < buffer.length →
      (processBlock P w p numIn numOut g e buffer t).2.2.get? ch =
        some (List.replicate (buffer.getD 0 []).length 0)) := by
  simp only [processBlock, hb, if_true]
  refine ⟨trivial, trivial, ?_, ?_⟩
  · intro ch hch
    rw [clearChannels_get]
    have hcond : ¬ (numIn ≤ ch ∧ ch < numOut) := by omega
    cases buffer.get? ch with
    | none => rfl
    | some c => simp [hcond]
  · intro ch h1 h2 h3
    rw [clearChannels_get]
    have hcond : numIn ≤ ch ∧ ch < numOut := ⟨h1, h2⟩
    rw [List.get?_eq_get h3]
    simp [hcond]

/-- Witness for `c3_bypass_identity`: a bypassed two-sample stereo block on a
mono-input configuration leaves channel 0 untouched, zero-fills channel 1, and
leaves both state components unchanged. -/
theorem c3_bypass_identity_witness :
    (processBlock testPrims 4 { paramsHiCut with bypass := true } 1 2 ⟨0⟩ engineAt100
        [[1, 2], [3, 4]] 1).1 = (⟨0⟩ : GlobalState) ∧
    (processBlock testPrims 4 { paramsHiCut with bypass := true } 1 2 ⟨0⟩ engineAt100
        [[1, 2], [3, 4]] 1).2.1 = engineAt100 ∧
    (processBlock testPrims 4 { paramsHiCut with bypass := true } 1 2 ⟨0⟩ engineAt100
        [[1, 2], [3, 4]] 1).2.2.get? 0 = some [1, 2] ∧
    (processBlock testPrims 4 { paramsHiCut with bypass := true } 1 2 ⟨0⟩ engineAt100
        [[1, 2], [3, 4]] 1).2.2.get? 1 = some [0, 0] := by
  have h := c3_bypass_identity testPrims 4 { paramsHiCut with bypass := true } 1 2 ⟨0⟩
    engineAt100 [[1, 2], [3, 4]] 1 rfl
  refine ⟨h.1, h.2.1, ?_, ?_⟩
  · rw [h.2.2.1 0 (by decide)]
    rfl
  · rw [h.2.2.2 1 (by decide) (by decide) (by decide)]
    rfl

/-! ## C5: comb feedback gain formula -/

theorem combScalar_feedbackGain :
    ∀ (xs : List ℚ) (s : SharcCombFilter),
      (s.processBlockScalar xs).1.feedbackGain = s.feedbackGain := by
  intro xs
  induction xs with
  | nil => intro s; rfl
  | cons x xs ih =>
    intro s
    simp only [SharcCombFilter.processBlockScalar]
    rw [ih (combStepScalar s x).1]
    rfl

theorem combSimdGroups_feedbackGain :
    ∀ (k w : ℕ) (s : SharcCombFilter) (xs : List ℚ),
      (combSimdGroups w k s xs).1.feedbackGain = s.feedbackGain := by
  intro k
  induction k with
  | zero => intro w s xs; exact combScalar_feedbackGain xs s
  | succ k ih =>
    intro w s xs
    simp only [combSimdGroups]
    rw [ih w (combSimdGroup w s (xs.take w)).1 (xs.drop w)]
    rfl

theorem combSIMD_feedbackGain (w : ℕ) (s : SharcCombFilter) (xs : List ℚ) :
    (s.processBlockSIMD w xs).1.feedbackGain = s.feedbackGain :=
  combSimdGroups_feedbackGain (xs.length / w) w s xs

theorem combLoop_gains :
    ∀ (cs : List SharcCombFilter) (useSimd : Bool) (w : ℕ) (b : Bool) (mono : List ℚ),
      ((combLoop useSimd w b cs mono).1).map (fun c => c.feedbackGain)
        = cs.map (fun c => c.feedbackGain) := by
  intro cs
  induction cs with
  | nil => intro useSimd w b mono; rfl
  | cons c rest ih =>
    intro useSimd w b mono
    simp only [combLoop, List.map_cons]
    rw [ih]
    cases useSimd with
    | false => simp [combScalar_feedbackGain]
    | true => simp [combSIMD_feedbackGain]

theorem setGain_map_gains (cs : List SharcCombFilter) (P : Prims) (f Gq : ℚ) :
    (cs.map fun c => (SharcCombFilter.setDampingFreq P c f).setGain Gq).map
        (fun c => c.feedbackGain)
      = List.replicate cs.length (jlimit 0 (99 / 100) Gq) := by
  induction cs with
  | nil => rfl
  | cons c rest ih =>
    simp only [List.map_cons, List.length_cons, List.replicate_succ]
    rw [ih]
    rfl

/-- C5 (amended): at the start of every processed block with bypass off, all
comb filters are assigned the single feedback gain
`jlimit 0 0.99 (jlimit 0.1 0.99 (10^(-3*avgDelayMs/(decay*1000))) * (1 + bassMult*0.05))`,
where `avgDelayMs = ((1116+1188+1277+1356)/4) * 1000 / sampleRate` — the
average of the four 48 kHz-reference delay counts read as samples at the
CURRENT sample rate.  (This equals the bank-average comb delay time in
milliseconds only at 48 kHz; see the counterexample.)  The outer clamp to
[0, 0.99] is applied by `setGain`; comb processing preserves the gain, so the
post-block state still carries it. -/
theorem c5_comb_gain_formula (P : Prims) (w : ℕ) (p : ReverbParams)
    (numIn numOut : ℕ) (g : GlobalState) (e : EngineState)
    (buffer : List (List ℚ)) (t : ℚ) (hb : p.bypass = false) :
    ((processBlock P w p numIn numOut g e buffer t).2.1).combs.map
        (fun c => c.feedbackGain) =
      List.replicate e.combs.length
        (jlimit 0 (99 / 100)
          (jlimit (1 / 10) (99 / 100)
              (P.pow10 (-3 * (((1116 + 1188 + 1277 + 1356 : ℚ) / 4) * 1000
                  / e.currentSampleRate) / (p.decay * 1000)))
            * (1 + p.bassMult * (5 / 100)))) := by
  simp only [processBlock, reverbWet, hb, Bool.false_eq_true, if_false]
  rw [combLoop_gains, setGain_map_gains]

/-- The engine prepared at (model) sample rate 96 (≠ 48000): every comb's
active delay becomes `trunc(base * 96 / 48000) = 2` samples. -/
def engineAt96 : EngineState := prepareToPlay testPrims 96 initialEngine

/-- The bank-average comb delay time in milliseconds of an engine state,
computed from the combs' actual active delay lengths at the current sample
rate — the quantity the claim's formula names. -/
def bankAvgCombDelayMs (e : EngineState) : ℚ :=
  ((e.combs.map fun c => (c.delaySamples : ℚ)).sum / 4) * 1000 / e.currentSampleRate

/-- A plain parameter snapshot for the gain counterexample: decay 2 s, no
pre-delay, no hi-cut, no bass multiply, bypass off. -/
def paramsC5 : ReverbParams :=
  { decay := 2, predelayMs := 0, dampingPct := 0, diffusion := 0, hiCutDb := 0,
    bassMult := 0, wet := 1, bypass := false, simd := false }

/-- C5 counterexample to the claim as stated: at sample rate 96 every comb's
actual delay is 2 samples, so the bank-average comb delay time is
`2 * 1000 / 96 ≈ 20.8` ms — but the code computes `avgDelayMs` from the four
48 kHz-reference counts divided by the CURRENT sample rate,
`(4937/4) * 1000 / 96 ≈ 12857` ms.  With the injective `pow10` stand-in the
stored gain (0.1 after clamping) differs from the gain the claim's formula
demands (15/32).  The claim's identification of `avgDelayMs` with the
bank-average comb delay time in milliseconds only holds at 48 kHz. -/
theorem c5_gain_counterexample :
    ¬ (((processBlock testPrims 4 paramsC5 2 2 ⟨0⟩ engineAt96 [[], []] 1).2.1).combs.map
          (fun c => c.feedbackGain) =
        List.replicate 4
          (jlimit 0 (99 / 100)
            (jlimit (1 / 10) (99 / 100)
                (testPrims.pow10
                  (-3 * bankAvgCombDelayMs engineAt96 / (paramsC5.decay * 1000)))
              * (1 + paramsC5.bassMult * (5 / 100))))) := by
  decide

/-- Witness for `c5_comb_gain_formula` at the concrete sample-rate-96 engine
with decay 2 s and bass multiply 0. -/
theorem c5_comb_gain_formula_witness :
    ((processBlock testPrims 4 paramsC5 2 2 ⟨0⟩ engineAt96 [[], []] 1).2.1).combs.map
        (fun c => c.feedbackGain) =
      List.replicate engineAt96.combs.length
        (jlimit 0 (99 / 100)
          (jlimit (1 / 10) (99 / 100)
              (testPrims.pow10 (-3 * (((1116 + 1188 + 1277 + 1356 : ℚ) / 4) * 1000
                  / engineAt96.currentSampleRate) / (paramsC5.decay * 1000)))
            * (1 + paramsC5.bassMult * (5 / 100)))) :=
  c5_comb_gain_formula testPrims 4 paramsC5 2 2 ⟨0⟩ engineAt96 [[], []] 1 rfl

/-! ## C10: CPU usage frame property -/

theorem processBlock_currentSampleRate (P : Prims) (w : ℕ) (p : ReverbParams)
    (numIn numOut : ℕ) (g : GlobalState) (e : EngineState)
    (buffer : List (List ℚ)) (t : ℚ) :
    ((processBlock P w p numIn numOut g e buffer t).2.1).currentSampleRate
      = e.currentSampleRate := by
  cases hb : p.bypass with
  | true => simp [processBlock, hb]
  | false => simp [processBlock, reverbWet, hb]

theorem processBlock_cpuUsage (P : Prims) (w : ℕ) (p : ReverbParams)
    (numIn numOut : ℕ) (g : GlobalState) (e : EngineState)
    (buffer : List (List ℚ)) (t : ℚ) :
    ((processBlock P w p numIn numOut g e buffer t).2.1).cpuUsage =
      if p.bypass then e.cpuUsage
      else (t / 1000) / (((buffer.getD 0 []).length : ℚ) / e.currentSampleRate) := by
  cases hb : p.bypass with
  | true => simp [processBlock, hb]
  | false => simp [processBlock, reverbWet, hb]

/-- C10: `cpuUsage` (the value `getCpuUsage` returns) is a fold over the block
sequence that is left UNCHANGED by every bypassed block (bypass returns before
the measurement) and overwritten with
`(blockTimeMs/1000) / (numSamples / sampleRate)` by every non-bypassed block —
so after any run it reflects the most recently completed non-bypassed block,
or the engine's starting value; a freshly constructed processor starts at 0
and `prepareToPlay` never touches the reading, so with no non-bypassed block
since construction `getCpuUsage` returns 0. -/
theorem c10_cpu_usage_frame (P : Prims) (w numIn numOut : ℕ)
    (g : GlobalState) (e : EngineState)
    (blocks : List (ReverbParams × List (List ℚ) × ℚ)) :
    getCpuUsage (runBlocks P w numIn numOut (g, e) blocks).2 =
      blocks.foldl
        (fun acc b =>
          if b.1.bypass then acc
          else (b.2.2 / 1000) / (((b.2.1.getD 0 []).length : ℚ) / e.currentSampleRate))
        e.cpuUsage ∧
    getCpuUsage initialEngine = 0 ∧
    (∀ (Q : Prims) (sr : ℚ) (e2 : EngineState),
      getCpuUsage (prepareToPlay Q sr e2) = getCpuUsage e2) := by
  refine ⟨?_, rfl, fun _ _ _ => rfl⟩
  induction blocks generalizing g e with
  | nil => rfl
  | cons b bs ih =>
    simp only [runBlocks, List.foldl_cons]
    rw [ih (processBlock P w b.1 numIn numOut g e b.2.1 b.2.2).1
        (processBlock P w b.1 numIn numOut g e b.2.1 b.2.2).2.1]
    simp only [processBlock_currentSampleRate, processBlock_cpuUsage]

/-! ## C4: wet/dry mixing -/

theorem simdReadDelayed_length (buf : List ℚ) (len : ℕ) :
    ∀ (w pos : ℕ), (simdReadDelayed buf len pos w).length = w := by
  intro w
  induction w with
  | zero => intro pos; rfl
  | succ k ih =>
    intro pos
    simp only [simdReadDelayed, List.length_cons, ih]

theorem simdDampSeq_length (damp : ℚ) :
    ∀ (ds : List ℚ) (flt : ℚ), (simdDampSeq damp flt ds).1.length = ds.length := by
  intro ds
  induction ds with
  | nil => intro flt; rfl
  | cons d ds ih =>
    intro flt
    simp only [simdDampSeq, List.length_cons, ih]

theorem combScalar_out_length :
    ∀ (xs : List ℚ) (s : SharcCombFilter),
      (s.processBlockScalar xs).2.length = xs.length := by
  intro xs
  induction xs with
  | nil => intro s; rfl
  | cons x xs ih =>
    intro s
    simp only [SharcCombFilter.processBlockScalar, List.length_cons, ih]

theorem combSimdGroups_out_length :
    ∀ (k w : ℕ) (s : SharcCombFilter) (xs : List ℚ),
      (combSimdGroups w k s xs).2.length = xs.length := by
  intro k
  induction k with
  | zero => intro w s xs; exact combScalar_out_length xs s
  | succ k ih =>
    intro w s xs
    simp only [combSimdGroups, List.length_append, ih, combSimdGroup,
      List.length_zipWith, simdDampSeq_length, simdReadDelayed_length,
      List.length_take, List.length_drop]
    omega

theorem combSIMD_out_length (w : ℕ) (s : SharcCombFilter) (xs : List ℚ) :
    (s.processBlockSIMD w xs).2.length = xs.length :=
  combSimdGroups_out_length (xs.length / w) w s xs

theorem combLoop_out_length :
    ∀ (cs : List SharcCombFilter) (useSimd : Bool) (w : ℕ) (b : Bool) (mono : List ℚ),
      (combLoop useSimd w b cs mono).2.length = mono.length := by
  intro cs
  induction cs with
  | nil => intro useSimd w b mono; rfl
  | cons c rest ih =>
    intro useSimd w b mono
    simp only [combLoop]
    rw [ih]
    cases useSimd with
    | false =>
      cases b <;> simp [combScalar_out_length, List.length_zipWith]
    | true =>
      cases b <;> simp [combSIMD_out_length, List.length_zipWith]

theorem allpassScalar_out_length :
    ∀ (xs : List ℚ) (s : SharcAllpassFilter),
      (s.processBlockScalar xs).2.length = xs.length := by
  intro xs
  induction xs with
  | nil => intro s; rfl
  | cons x xs ih =>
    intro s
    simp only [SharcAllpassFilter.processBlockScalar, List.length_cons, ih]

theorem allpassSimdGroups_out_length :
    ∀ (k w : ℕ) (s : SharcAllpassFilter) (xs : List ℚ),
      (allpassSimdGroups w k s xs).2.length = xs.length := by
  intro k
  induction k with
  | zero => intro w s xs; exact allpassScalar_out_length xs s
  | succ k ih =>
    intro w s xs
    simp only [allpassSimdGroups, List.length_append, ih, allpassSimdGroup,
      List.length_zipWith, simdReadDelayed_length,
      List.length_take, List.length_drop]
    omega

theorem allpassSIMD_out_length (w : ℕ) (s : SharcAllpassFilter) (xs : List ℚ) :
    (s.processBlockSIMD w xs).2.length = xs.length :=
  allpassSimdGroups_out_length (xs.length / w) w s xs

theorem allpassChain_out_length :
    ∀ (aps : List SharcAllpassFilter) (useSimd : Bool) (w : ℕ) (gain : ℚ) (mono : List ℚ),
      (allpassChain useSimd w gain aps mono).2.length = mono.length := by
  intro aps
  induction aps with
  | nil => intro useSimd w gain mono; rfl
  | cons a rest ih =>
    intro useSimd w gain mono
    simp only [allpassChain]
    rw [ih]
    cases useSimd with
    | false => simp [allpassScalar_out_length]
    | true => simp [allpassSIMD_out_length]

theorem hiCut_out_length (c : ℚ) :
    ∀ (xs : List ℚ) (prev : ℚ), ((hiCutFilter c prev xs).2).length = xs.length := by
  intro xs
  induction xs with
  | nil => intro prev; rfl
  | cons x xs ih =>
    intro prev
    simp only [hiCutFilter, List.length_cons, ih]

theorem preDelay_out_length (size pds : ℕ) :
    ∀ (xs : List ℚ) (buf : List ℚ) (wp : ℕ),
      ((preDelayProcess size pds buf wp xs).2.2).length = xs.length := by
  intro xs
  induction xs with
  | nil => intro buf wp; rfl
  | cons x xs ih =>
    intro buf wp
    simp only [preDelayProcess, List.length_cons, ih]

theorem reverbWet_out_length (P : Prims) (w : ℕ) (p : ReverbParams) (numIn : ℕ)
    (g : GlobalState) (e : EngineState) (buffer : List (List ℚ))
    (h1 : 1 < numIn → (buffer.getD 1 []).length = (buffer.getD 0 []).length) :
    ((reverbWet P w p numIn g e buffer).2.2).length = (buffer.getD 0 []).length := by
  simp only [reverbWet]
  rw [allpassChain_out_length, List.length_map, combLoop_out_length]
  split
  · rw [preDelay_out_length]
    split
    · rw [hiCut_out_length]
      split
      · next hlt =>
        simp only [List.length_map, List.length_zipWith, h1 hlt]
        omega
      · rfl
    · split
      · next hlt =>
        simp only [List.length_map, List.length_zipWith, h1 hlt]
        omega
      · rfl
  · split
    · rw [hiCut_out_length]
      split
      · next hlt =>
        simp only [List.length_map, List.length_zipWith, h1 hlt]
        omega
      · rfl
    · split
      · next hlt =>
        simp only [List.length_map, List.length_zipWith, h1 hlt]
        omega
      · rfl

theorem getD_map (f : ℚ → ℚ) :
    ∀ (l : List ℚ) (i : ℕ), i < l.length → (l.map f).getD i 0 = f (l.getD i 0) := by
  intro l
  induction l with
  | nil => intro i hi; exact absurd hi (by simp)
  | cons a as ih =>
    intro i hi
    cases i with
    | zero => rfl
    | succ j =>
      simp only [List.map_cons, List.getD_cons_succ]
      exact ih j (by simpa using hi)

theorem getD_zipWith (f : ℚ → ℚ → ℚ) :
    ∀ (as bs : List ℚ) (i : ℕ), i < as.length → i < bs.length →
      (List.zipWith f as bs).getD i 0 = f (as.getD i 0) (bs.getD i 0) := by
  intro as
  induction as with
  | nil => intro bs i hi _; simp at hi
  | cons a as ih =>
    intro bs i hi hbi
    cases bs with
    | nil => simp at hbi
    | cons b bs =>
      cases i with
      | zero => rfl
      | succ j =>
        simp only [List.zipWith_cons_cons, List.getD_cons_succ]
        exact ih bs j (by simpa using hi) (by simpa using hbi)

theorem getD_replicate_zero (n i : ℕ) : (List.replicate n (0 : ℚ)).getD i 0 = 0 := by
  induction n generalizing i with
  | zero => cases i <;> rfl
  | succ k ih =>
    cases i with
    | zero => rfl
    | succ j => exact ih j

theorem clearChannels_two (numIn n : ℕ) (c0 c1 : List ℚ) :
    clearChannels numIn 2 n 0 [c0, c1] =
      [if numIn = 0 then List.replicate n 0 else c0,
       if numIn ≤ 1 then List.replicate n 0 else c1] := by
  simp only [clearChannels]
  congr 1
  · split
    · next h => rw [if_pos (by omega)]
    · next h => rw [if_neg (by omega)]
  · congr 1
    split
    · next h => rw [if_pos (by omega)]
    · next h => rw [if_neg (by omega)]

theorem mixStage_two (wet : ℚ) (d0 d1 mono : List ℚ) :
    mixStage wet 2 [d0, d1] mono [d0, d1] =
      [List.zipWith (fun o m => o + m * wet) (d0.map (· * (1 - wet))) mono,
       List.zipWith (fun o m => o + m * (-wet)) (d1.map (· * (1 - wet))) mono] := by
  rfl

/-- C4: with bypass off, on a two-channel host buffer with stereo output,
output channel 0 is `dry*(1-wetMix) + wet*wetMix` and output channel 1 is
`dry*(1-wetMix) - wet*wetMix` per sample, where `dry` is the engine's dry copy
of the respective channel (the cleared input buffer) and `wet` is the single
mono wet signal produced by the reverb path, shared by both channels.  In
particular, for `wetMix = 0` both output channels equal the dry copy exactly,
and for `wetMix = 1` with silent input the right channel is the pointwise
negation of the left channel. -/
theorem c4_wet_dry_mix (P : Prims) (w : ℕ) (p : ReverbParams) (numIn : ℕ)
    (g : GlobalState) (e : EngineState) (ch0 ch1 : List ℚ) (t : ℚ)
    (h1 : ch1.length = ch0.length) (hb : p.bypass = false) :
    (∀ i, i < ch0.length →
      ((processBlock P w p numIn 2 g e [ch0, ch1] t).2.2.getD 0 []).getD i 0 =
        ((clearChannels numIn 2 ch0.length 0 [ch0, ch1]).getD 0 []).getD i 0 * (1 - p.wet)
          + ((reverbWet P w p numIn g e
              (clearChannels numIn 2 ch0.length 0 [ch0, ch1])).2.2).getD i 0 * p.wet) ∧
    (∀ i, i < ch0.length →
      ((processBlock P w p numIn 2 g e [ch0, ch1] t).2.2.getD 1 []).getD i 0 =
        ((clearChannels numIn 2 ch0.length 0 [ch0, ch1]).getD 1 []).getD i 0 * (1 - p.wet)
          - ((reverbWet P w p numIn g e
              (clearChannels numIn 2 ch0.length 0 [ch0, ch1])).2.2).getD i 0 * p.wet) ∧
    (p.wet = 0 → ∀ i, i < ch0.length →
      ((processBlock P w p numIn 2 g e [ch0, ch1] t).2.2.getD 0 []).getD i 0 =
        ((clearChannels numIn 2 ch0.length 0 [ch0, ch1]).getD 0 []).getD i 0 ∧
      ((processBlock P w p numIn 2 g e [ch0, ch1] t).2.2.getD 1 []).getD i 0 =
        ((clearChannels numIn 2 ch0.length 0 [ch0, ch1]).getD 1 []).getD i 0) ∧
    (p.wet = 1 → (∀ i, i < ch0.length → ch0.getD i 0 = 0) →
      (∀ i, i < ch0.length → ch1.getD i 0 = 0) →
      ∀ i, i < ch0.length →
        ((processBlock P w p numIn 2 g e [ch0, ch1] t).2.2.getD 1 []).getD i 0 =
          -(((processBlock P w p numIn 2 g e [ch0, ch1] t).2.2.getD 0 []).getD i 0)) := by
  have hB0len : (if numIn = 0 then List.replicate ch0.length (0 : ℚ) else ch0).length
      = ch0.length := by
    split <;> simp
  have hB1len : (if numIn ≤ 1 then List.replicate ch0.length (0 : ℚ) else ch1).length
      = ch0.length := by
    split <;> simp [h1]
  have hws : ((reverbWet P w p numIn g e
      (clearChannels numIn 2 ch0.length 0 [ch0, ch1])).2.2).length = ch0.length := by
    rw [clearChannels_two]
    rw [reverbWet_out_length]
    · simpa using hB0len
    · intro _
      simp only [List.getD_cons_zero, List.getD_cons_succ]
      rw [hB0len, hB1len]
  simp only [processBlock, hb, Bool.false_eq_true, if_false, List.getD_cons_zero,
    List.getD_cons_succ, clearChannels_two, mixStage_two]
  rw [clearChannels_two] at hws
  have hget0 : ∀ i, i < ch0.length →
      (List.zipWith (fun o m => o + m * p.wet)
          ((if numIn = 0 then List.replicate ch0.length (0 : ℚ) else ch0).map
            (· * (1 - p.wet)))
          ((reverbWet P w p numIn g e
            [if numIn = 0 then List.replicate ch0.length (0 : ℚ) else ch0,
             if numIn ≤ 1 then List.replicate ch0.length (0 : ℚ) else ch1]).2.2)).getD i 0
        = (if numIn = 0 then List.replicate ch0.length (0 : ℚ) else ch0).getD i 0
            * (1 - p.wet)
          + ((reverbWet P w p numIn g e
              [if numIn = 0 then List.replicate ch0.length (0 : ℚ) else ch0,
               if numIn ≤ 1 then List.replicate ch0.length (0 : ℚ) else ch1]).2.2).getD i 0
            * p.wet := by
    intro i hi
    rw [getD_zipWith _ _ _ i (by simpa [hB0len] using hi) (by rw [hws]; exact hi)]
    rw [getD_map _ _ i (by rw [hB0len]; exact hi)]
  have hget1 : ∀ i, i < ch0.length →
      (List.zipWith (fun o m => o + m * (-p.wet))
          ((if numIn ≤ 1 then List.replicate ch0.length (0 : ℚ) else ch1).map
            (· * (1 - p.wet)))
          ((reverbWet P w p numIn g e
            [if numIn = 0 then List.replicate ch0.length (0 : ℚ) else ch0,
             if numIn ≤ 1 then List.replicate ch0.length (0 : ℚ) else ch1]).2.2)).getD i 0
        = (if numIn ≤ 1 then List.replicate ch0.length (0 : ℚ) else ch1).getD i 0
            * (1 - p.wet)
          + ((reverbWet P w p numIn g e
              [if numIn = 0 then List.replicate ch0.length (0 : ℚ) else ch0,
               if numIn ≤ 1 then List.replicate ch0.length (0 : ℚ) else ch1]).2.2).getD i 0
            * (-p.wet) := by
    intro i hi
    rw [getD_zipWith _ _ _ i (by simpa [hB1len] using hi) (by rw [hws]; exact hi)]
    rw [getD_map _ _ i (by rw [hB1len]; exact hi)]
  refine ⟨?_, ?_, ?_, ?_⟩
  · intro i hi
    rw [hget0 i hi]
  · intro i hi
    rw [hget1 i hi]
    ring
  · intro hw i hi
    refine ⟨?_, ?_⟩
    · rw [hget0 i hi, hw]
      ring
    · rw [hget1 i hi, hw]
      ring
  · intro hw hz0 hz1 i hi
    rw [hget0 i hi, hget1 i hi, hw]
    have hd0 : (if numIn = 0 then List.replicate ch0.length (0 : ℚ) else ch0).getD i 0
        = 0 := by
      split
      · exact getD_replicate_zero _ _
      · exact hz0 i hi
    have hd1 : (if numIn ≤ 1 then List.replicate ch0.length (0 : ℚ) else ch1).getD i 0
        = 0 := by
      split
      · exact getD_replicate_zero _ _
      · exact hz1 i hi
    rw [hd0, hd1]
    ring

/-- Witness for `c4_wet_dry_mix`: concrete stereo two-sample block through the
prepared engine, checking the mix formula on sample 0 of channel 0 and
sample 1 of channel 1. -/
theorem c4_wet_dry_mix_witness :
    ((processBlock testPrims 4 paramsHiCut 2 2 ⟨0⟩ engineAt100
        [[1, 2], [3, 4]] 1).2.2.getD 0 []).getD 0 0 =
      ((clearChannels 2 2 2 0 [[1, 2], [3, 4]]).getD 0 []).getD 0 0
          * (1 - paramsHiCut.wet)
        + ((reverbWet testPrims 4 paramsHiCut 2 ⟨0⟩ engineAt100
            (clearChannels 2 2 2 0 [[1, 2], [3, 4]])).2.2).getD 0 0
          * paramsHiCut.wet ∧
    ((processBlock testPrims 4 paramsHiCut 2 2 ⟨0⟩ engineAt100
        [[1, 2], [3, 4]] 1).2.2.getD 1 []).getD 1 0 =
      ((clearChannels 2 2 2 0 [[1, 2], [3, 4]]).getD 1 []).getD 1 0
          * (1 - paramsHiCut.wet)
        - ((reverbWet testPrims 4 paramsHiCut 2 ⟨0⟩ engineAt100
            (clearChannels 2 2 2 0 [[1, 2], [3, 4]])).2.2).getD 1 0
          * paramsHiCut.wet :=
  ⟨(c4_wet_dry_mix testPrims 4 paramsHiCut 2 ⟨0⟩ engineAt100
      [1, 2] [3, 4] 1 rfl rfl).1 0 (by decide),
   (c4_wet_dry_mix testPrims 4 paramsHiCut 2 ⟨0⟩ engineAt100
      [1, 2] [3, 4] 1 rfl rfl).2.1 1 (by decide)⟩
